import Mathlib

/-
Verification of the Second Brain ingestion-and-processing pipeline.

The repository provisions the pipeline with AWS CDK (DynamoDB entity store,
S3 durable log, SQS work queue with a dead-letter queue, ingress / processing /
response lambdas).  The queue and app configuration below is translated
directly from cdk/lib/constructs/second-brain-app.ts; the behavioural
components (entity store operations, durable log, ingress receiver,
processing worker, response dispatcher, replay engine) live in the package
`packages/lambda` / `second_brain_core`, which is not part of the sources
here, and are modelled from the specification (sections 4.1-4.7).
-/

namespace SecondBrain

/-- Message status values, from the architecture document and spec section 3:
received, processing, processed, failed, sent, archived. -/
inductive MsgStatus where
  | received
  | processing
  | processed
  | failed
  | sent
  | archived
deriving DecidableEq, Repr

/-- Reference into the Durable Log: namespace plus time-ordered key
(spec section 4.2 and section 6, persisted layout). -/
structure LogRef where
  ns : String
  key : String
deriving DecidableEq, Repr

/-- Time-ordered log key: timestamp followed by message id, mirroring the
`message#<timestamp>#<message_id>` / `{...}/{message_id}.json` layouts. -/
def mkLogKey (ts mid : String) : String :=
  ts ++ "#" ++ mid

/-- Modelled from the spec: a Durable Log record, keyed by namespace and
timestamp + message id, holding the raw payload (spec section 4.2). -/
structure DurableLogRecord where
  ns : String
  ts : String
  mid : String
  payload : String
deriving DecidableEq, Repr

/-- The key of a stored log record. -/
def DurableLogRecord.key (r : DurableLogRecord) : String :=
  mkLogKey r.ts r.mid

/-- Modelled from the spec: a Message entity
`{namespace, id, raw_text, status, log_reference, created_at}` (spec section 3). -/
structure Message where
  ns : String
  id : String
  raw_text : String
  log_reference : LogRef
  status : MsgStatus
  created_at : String
deriving DecidableEq, Repr

/-- Kinds of derived entities (spec glossary: Task, Todo, Reminder). -/
inductive EntityKind where
  | task
  | todo
  | reminder
deriving DecidableEq, Repr

/-- Modelled from the spec: a proposed entity returned by the agent
capability, a tagged variant over task / todo / reminder fields
(spec section 6). -/
structure Proposed where
  kind : EntityKind
  fields : String
deriving DecidableEq, Repr

/-- Modelled from the spec: a derived entity persisted by the Processing
Worker: fresh generated id, the proposed fields, a weak back-reference
`source_message_id`, and a creation timestamp (spec sections 3 and 4.5). -/
structure Derived where
  id : Nat
  kind : EntityKind
  fields : String
  source_message_id : String
  created_at : Nat
deriving DecidableEq, Repr

/-- Modelled from the spec: the Entity Store (spec section 4.1), one keyed
store holding messages and derived entities, plus the fresh-id counter used
by the Processing Worker when generating derived entity ids. -/
structure EntityStore where
  messages : List Message
  derived : List Derived
  nextId : Nat
deriving DecidableEq, Repr

/-- Error taxonomy of the Entity Store contract (spec sections 4.1 and 7). -/
inductive StoreErr where
  | conflict
  | notFound
deriving DecidableEq, Repr

/-- Look up a message by id in a list of messages. -/
def findMsg (l : List Message) (mid : String) : Option Message :=
  l.find? (fun m => m.id == mid)

/-- Entity Store `get` for messages (spec section 4.1). -/
def getMsg (s : EntityStore) (mid : String) : Option Message :=
  findMsg s.messages mid

/-- Overwrite the status of the message with the given id. -/
def putMsgStatus (s : EntityStore) (mid : String) (st : MsgStatus) : EntityStore :=
  { s with messages := s.messages.map (fun m => if m.id == mid then { m with status := st } else m) }

/-- Modelled from the spec: conditional `put` of a status transition,
constrained by the expected current status (optimistic check, spec
section 4.1): fails with `Conflict` when the stored status differs from the
expected one. -/
def condPutStatus (s : EntityStore) (mid : String) (expected target : MsgStatus) :
    Except StoreErr EntityStore :=
  match getMsg s mid with
  | none => .error .notFound
  | some m => if m.status = expected then .ok (putMsgStatus s mid target) else .error .conflict

/-- The store a caller holds after a conditional put: the new store on
success, the unchanged store when the put was rejected (the caller abandons
its transition, spec section 4.1). -/
def applyCondPut (s : EntityStore) (mid : String) (expected target : MsgStatus) : EntityStore :=
  match condPutStatus s mid expected target with
  | .ok s1 => s1
  | .error _ => s

/-- Idempotent create of a message row: a row that already exists under the
same id is left in place (same id implies same content, spec section 4.4). -/
def putMsgIfAbsent (s : EntityStore) (m : Message) : EntityStore :=
  match getMsg s m.id with
  | some _ => s
  | none => { s with messages := s.messages ++ [m] }

/-- Derived entities whose weak back-reference points at the given message. -/
def derivedFor (s : EntityStore) (mid : String) : List Derived :=
  s.derived.filter (fun d => d.source_message_id == mid)

/- ===== Durable Log (spec section 4.2) ===== -/

/-- Does the log already hold a record under this namespace and key? -/
def logHas (log : List DurableLogRecord) (ns key : String) : Bool :=
  (log.find? (fun r => r.ns == ns && r.key == key)).isSome

/-- Modelled from the spec: Durable Log `append(namespace, timestamp, payload)`
(spec section 4.2).  Returns the updated log and a stable reference.  A record
already present under the same key is kept as is: the log is write-once and
the append is idempotent under the same message id (spec section 4.4). -/
def logAppend (log : List DurableLogRecord) (ns ts mid payload : String) :
    List DurableLogRecord × LogRef :=
  let key := mkLogKey ts mid
  if logHas log ns key then (log, ⟨ns, key⟩)
  else (log ++ [⟨ns, ts, mid, payload⟩], ⟨ns, key⟩)

/-- Modelled from the spec: read a Durable Log record back through its
stable reference. -/
def logGet (log : List DurableLogRecord) (ref : LogRef) : Option String :=
  (log.find? (fun r => r.ns == ref.ns && r.key == ref.key)).map (fun r => r.payload)

/- ===== Processing Worker (spec section 4.5) ===== -/

/-- Modelled from the spec: the external agent capability, as observed by the
Processing Worker after its bounded local retry loop: for a given message
text it either yields a list of proposed entities or a final failure
(spec sections 4.5 and 6). -/
def AgentFn : Type :=
  String → Except Unit (List Proposed)

/-- State touched by the Processing Worker: the Entity Store and the response
work queue it feeds (spec section 4.5). -/
structure ProcState where
  store : EntityStore
  respQueue : List String
deriving DecidableEq, Repr

/-- Persist the agent proposals as derived entities: each gets a freshly
generated id from the store counter and `source_message_id` set to the
processed message (spec section 4.5). -/
def writeDerived (s : EntityStore) (mid : String) (now : Nat) (props : List Proposed) :
    EntityStore :=
  { s with
    derived := s.derived ++ props.enum.map (fun p => ⟨s.nextId + p.1, p.2.kind, p.2.fields, mid, now⟩),
    nextId := s.nextId + props.length }

/-- Modelled from the spec: one Processing Worker run on a leased work item
(spec section 4.5): read the Message; if its status is already `processed` or
`failed`, ack and exit; otherwise conditionally transition
`received → processing` (a conflict means another worker owns it: abandon);
invoke the agent; persist the derived entities; transition to `processed`
(or `failed` when the agent call finally errs) and enqueue a response work
item. -/
def processMessage (agent : AgentFn) (now : Nat) (p : ProcState) (mid : String) : ProcState :=
  match getMsg p.store mid with
  | none => p
  | some m =>
    if m.status = .processed ∨ m.status = .failed then p
    else
      match condPutStatus p.store mid .received .processing with
      | .error _ => p
      | .ok s1 =>
        match agent m.raw_text with
        | .ok props =>
          ⟨putMsgStatus (writeDerived s1 mid now props) mid .processed, p.respQueue ++ [mid]⟩
        | .error _ =>
          ⟨putMsgStatus s1 mid .failed, p.respQueue ++ [mid]⟩

/- ===== World state and component operations ===== -/

/-- The shared mutable state of the pipeline: Durable Log, Entity Store,
processing work queue and response work queue (spec section 2). -/
structure World where
  log : List DurableLogRecord
  store : EntityStore
  workQueue : List String
  respQueue : List String
deriving DecidableEq, Repr

/-- Which of the three ingress steps fail in a given run (each step is
independently retryable, spec section 4.4). -/
structure FailFlags where
  logFail : Bool
  storeFail : Bool
  enqueueFail : Bool
deriving DecidableEq, Repr

/-- The run in which every ingress step completes. -/
def FailFlags.allOk : FailFlags :=
  ⟨false, false, false⟩

/-- Modelled from the spec: Ingress Receiver `receive(namespace, raw_text)`
(spec section 4.4): append to the Durable Log, write the Message row with
status `received`, enqueue a processing work item.  A failing step aborts the
whole operation, which is reported to the caller as `none`; completed earlier
steps keep their effect and are idempotent, so the caller retries the entire
call. -/
def ingressReceive (flags : FailFlags) (w : World) (ns mid ts raw : String) :
    World × Option String :=
  if flags.logFail then (w, none) else
  let lr := logAppend w.log ns ts mid raw
  let w1 : World := { w with log := lr.1 }
  if flags.storeFail then (w1, none) else
  let msg : Message := ⟨ns, mid, raw, lr.2, .received, ts⟩
  let w2 : World := { w1 with store := putMsgIfAbsent w1.store msg }
  if flags.enqueueFail then (w2, none) else
  ({ w2 with workQueue := w2.workQueue ++ [mid] }, some mid)

/-- One Processing Worker run lifted to the world: it mutates the Entity
Store and response queue and acks its work item (spec section 4.5). -/
def workerStep (agent : AgentFn) (now : Nat) (w : World) (mid : String) : World :=
  let p := processMessage agent now ⟨w.store, w.respQueue⟩ mid
  { w with store := p.store, respQueue := p.respQueue, workQueue := w.workQueue.erase mid }

/-- Modelled from the spec: the Response Dispatcher (spec section 4.6):
lease a response item, deliver the outcome, conditionally transition the
Message to `sent` (expected prior status `processed` or `failed`, per the
mutation discipline of spec section 5), ack. -/
def dispatchResponse (w : World) (mid : String) : World :=
  match condPutStatus w.store mid .processed .sent with
  | .ok s1 => { w with store := s1, respQueue := w.respQueue.erase mid }
  | .error _ =>
    match condPutStatus w.store mid .failed .sent with
    | .ok s1 => { w with store := s1, respQueue := w.respQueue.erase mid }
    | .error _ => { w with respQueue := w.respQueue.erase mid }

/-- Modelled from the spec: logical retirement of a delivered Message via
the terminal status `archived` (spec section 3, lifecycle), again through the
conditional write discipline. -/
def archiveMessage (w : World) (mid : String) : World :=
  match condPutStatus w.store mid .sent .archived with
  | .ok s1 => { w with store := s1 }
  | .error _ => w

/-- The operations the three pipeline components perform against the shared
state (spec sections 4.4-4.6 plus archival). -/
inductive Op where
  | ingress (flags : FailFlags) (ns mid ts raw : String)
  | work (agent : AgentFn) (now : Nat) (mid : String)
  | dispatch (mid : String)
  | archive (mid : String)

/-- Interpret one operation on the world. -/
def applyOp (w : World) : Op → World
  | .ingress flags ns mid ts raw => (ingressReceive flags w ns mid ts raw).1
  | .work agent now mid => workerStep agent now w mid
  | .dispatch mid => dispatchResponse w mid
  | .archive mid => archiveMessage w mid

/-- Run a sequence of pipeline operations. -/
def runOps (ops : List Op) (w : World) : World :=
  ops.foldl applyOp w

/-- The observable status of a message in the world, `none` when the message
does not exist. -/
def statusOf (w : World) (mid : String) : Option MsgStatus :=
  (getMsg w.store mid).map Message.status

/-- The forward order on statuses along
`received → processing → processed|failed → sent → archived`
(`processed` and `failed` are alternatives, not ordered with each other). -/
def statusLe : MsgStatus → MsgStatus → Bool
  | .received, _ => true
  | .processing, .received => false
  | .processing, _ => true
  | .processed, .processed => true
  | .processed, .sent => true
  | .processed, .archived => true
  | .processed, _ => false
  | .failed, .failed => true
  | .failed, .sent => true
  | .failed, .archived => true
  | .failed, _ => false
  | .sent, .sent => true
  | .sent, .archived => true
  | .sent, _ => false
  | .archived, .archived => true
  | .archived, _ => false

/-- Forward order lifted to possibly-absent messages: a message can be
created but never deleted, and is created with status `received`. -/
def statusLeO : Option MsgStatus → Option MsgStatus → Bool
  | none, _ => true
  | some _, none => false
  | some a, some b => statusLe a b

/- ===== Queue configuration (cdk/lib/constructs/second-brain-app.ts) ===== -/

/-- Redrive policy of an SQS queue: `maxReceiveCount` before an item moves to
the dead-letter queue (second-brain-app.ts, lines 103-106). -/
structure DeadLetterPolicy where
  maxReceiveCount : Nat
deriving DecidableEq, Repr

/-- The queue properties the construct sets: name, visibility timeout,
retention period, optional dead-letter redrive policy. -/
structure SqsQueueConfig where
  queueName : String
  visibilityTimeoutMinutes : Option Nat
  retentionPeriodHours : Nat
  deadLetter : Option DeadLetterPolicy
deriving DecidableEq, Repr

/-- The response queue of SecondBrainApp (second-brain-app.ts, lines 61-66). -/
def responseQueueConfig : SqsQueueConfig :=
  ⟨"second-brain-responses", some 5, 4, none⟩

/-- The dead-letter queue of the message queue (second-brain-app.ts,
lines 80-84): 14 days retention, no visibility timeout or redrive set. -/
def messageQueueDLQConfig : SqsQueueConfig :=
  ⟨"second-brain-messages-dlq", none, 14 * 24, none⟩

/-- The primary message processing queue (second-brain-app.ts, lines 98-107):
5 minutes visibility timeout, 1 hour retention, dead-letter redrive after
3 receive attempts. -/
def messageQueueConfig : SqsQueueConfig :=
  ⟨"second-brain-messages", some 5, 1, some ⟨3⟩⟩

/-- The configured maximum receive count of the primary message queue. -/
def messageQueueMaxReceiveCount : Nat :=
  match messageQueueConfig.deadLetter with
  | some p => p.maxReceiveCount
  | none => 0

/- ===== Work Queue semantics (spec section 4.3) ===== -/

/-- A work item in flight: its id, its per-item receive counter, and the time
it was enqueued. -/
structure QItem where
  id : Nat
  receiveCount : Nat
  enqueuedAt : Nat
deriving DecidableEq, Repr

/-- Modelled from the spec: the Work Queue together with its paired
dead-letter queue (spec section 4.3). -/
structure SBQueue where
  maxReceiveCount : Nat
  primary : List QItem
  dlq : List QItem
deriving DecidableEq, Repr

/-- Enqueue a fresh work item (receive counter 0). -/
def enqueueItem (q : SBQueue) (i now : Nat) : SBQueue :=
  { q with primary := q.primary ++ [⟨i, 0, now⟩] }

/-- Modelled from the spec: one delivery attempt of the item with the given
id (spec section 4.3).  The per-item receive counter increments on every
delivery; once it exceeds the configured maximum the item is moved to the
dead-letter queue instead of being delivered.  Items in the dead-letter
queue are outside `primary` and are never delivered to normal consumers. -/
def deliverAttempt (q : SBQueue) (i : Nat) : SBQueue × Option QItem :=
  match q.primary.find? (fun it => it.id == i) with
  | none => (q, none)
  | some it =>
    let it2 : QItem := ⟨it.id, it.receiveCount + 1, it.enqueuedAt⟩
    if q.maxReceiveCount < it2.receiveCount then
      ({ q with primary := q.primary.filter (fun x => x.id != i), dlq := q.dlq ++ [it2] }, none)
    else
      ({ q with primary := q.primary.map (fun x => if x.id == i then it2 else x) }, some it2)

/-- `ack` removes the leased item permanently (spec section 4.3). -/
def ackItem (q : SBQueue) (i : Nat) : SBQueue :=
  { q with primary := q.primary.filter (fun x => x.id != i) }

/-- Iterate delivery attempts on the same item without any `ack`
(lease expiry and redelivery, spec section 4.3). -/
def iterDeliver : Nat → SBQueue → Nat → SBQueue
  | 0, q, _ => q
  | n + 1, q, i => iterDeliver n (deliverAttempt q i).1 i

/-- Is an item with this id present in the primary queue? -/
def inPrimary (q : SBQueue) (i : Nat) : Bool :=
  q.primary.any (fun x => x.id == i)

/-- Is an item with this id present in the dead-letter queue? -/
def inDLQ (q : SBQueue) (i : Nat) : Bool :=
  q.dlq.any (fun x => x.id == i)

/-- The receive counter of the item in the primary queue, if present. -/
def primaryCount (q : SBQueue) (i : Nat) : Option Nat :=
  (q.primary.find? (fun x => x.id == i)).map (fun x => x.receiveCount)

/-- The primary message queue as provisioned: the configured maximum receive
count from second-brain-app.ts, holding one freshly enqueued work item. -/
def mkMessageQueue (i now : Nat) : SBQueue :=
  enqueueItem ⟨messageQueueMaxReceiveCount, [], []⟩ i now

/-- Modelled from the spec: retention expiry of the primary queue.  An item
older than the retention period is discarded from the primary queue; expiry
never moves anything into the dead-letter queue. -/
def expireOld (q : SBQueue) (now retention : Nat) : SBQueue :=
  { q with primary := q.primary.filter (fun it => now < it.enqueuedAt + retention) }

/- ===== SecondBrainApp constructor (second-brain-app.ts) ===== -/

/-- JavaScript falsiness of an optional environment variable string:
`undefined` and the empty string are falsy (`if (!telegramSecretToken)`). -/
def jsFalsy : Option String → Bool
  | none => true
  | some s => s == ""

/-- The error thrown when TELEGRAM_SECRET_TOKEN is missing
(second-brain-app.ts, lines 44-49). -/
def telegramTokenErrorMessage : String :=
  "TELEGRAM_SECRET_TOKEN environment variable is not set. " ++
  "Please add it to your .env or .env.local file (required for webhook security)."

/-- The resources SecondBrainApp defines that matter here: the three queue
configurations and the environment maps of the two lambda functions. -/
structure AppResources where
  responseQueue : SqsQueueConfig
  messageQueueDLQ : SqsQueueConfig
  messageQueue : SqsQueueConfig
  messageHandlerEnv : List (String × String)
  processingEnv : List (String × String)
deriving DecidableEq, Repr

/-- The SecondBrainApp constructor (second-brain-app.ts, lines 39-258):
reads TELEGRAM_SECRET_TOKEN first and throws when it is unset or empty,
before any resource is defined; then checks the ProjectRootPath context and
the lambda directory; on success the message handler lambda receives the
token in its environment. -/
def secondBrainApp (telegramSecretToken : Option String)
    (projectRootOk lambdaDirOk : Bool) (dataTableName dataBucketName : String) :
    Except String AppResources :=
  if jsFalsy telegramSecretToken then .error telegramTokenErrorMessage
  else if !projectRootOk then .error "ProjectRootPath context variable not set or invalid"
  else if !lambdaDirOk then .error "Lambda directory not found"
  else
    let token := telegramSecretToken.getD ""
    .ok
      { responseQueue := responseQueueConfig
        messageQueueDLQ := messageQueueDLQConfig
        messageQueue := messageQueueConfig
        messageHandlerEnv :=
          [("DYNAMODB_TABLE_NAME", dataTableName),
           ("S3_BUCKET_NAME", dataBucketName),
           ("MESSAGE_QUEUE_URL", messageQueueConfig.queueName),
           ("TELEGRAM_SECRET_TOKEN", token)],
        processingEnv :=
          [("DYNAMODB_TABLE_NAME", dataTableName),
           ("S3_BUCKET_NAME", dataBucketName),
           ("RESPONSE_QUEUE_URL", responseQueueConfig.queueName),
           ("BEDROCK_AGENT_FUNCTION_NAME", "bedrock-agent-runtime")] }

/- ===== Replay Engine (spec section 4.7) ===== -/

/-- Ascending-key insertion into a sorted list of log records. -/
def insertByKey (r : DurableLogRecord) : List DurableLogRecord → List DurableLogRecord
  | [] => [r]
  | x :: xs => if r.key ≤ x.key then r :: x :: xs else x :: insertByKey r xs

/-- Sort log records by their time-ordered key, ascending. -/
def sortByKey (l : List DurableLogRecord) : List DurableLogRecord :=
  l.foldr insertByKey []

/-- Modelled from the spec: Durable Log `list(namespace, time_range)`
(spec section 4.2): the records of the namespace whose keys fall in the
range, in ascending time order. -/
def listRange (log : List DurableLogRecord) (ns lo hi : String) : List DurableLogRecord :=
  sortByKey (log.filter (fun r => r.ns == ns && (lo ≤ r.key && r.key ≤ hi)))

/-- Modelled from the spec: replay of one log record (spec section 4.7):
synthesize a fresh Message row in the target store and drive it through the
Processing Worker logic. -/
def replayRecord (agent : AgentFn) (now : Nat) (t : ProcState) (r : DurableLogRecord) :
    ProcState :=
  let msg : Message := ⟨r.ns, r.mid, r.payload, ⟨r.ns, r.key⟩, .received, r.ts⟩
  processMessage agent now ⟨putMsgIfAbsent t.store msg, t.respQueue⟩ r.mid

/-- Modelled from the spec: replay a list of log records, in order, into a
target store (spec section 4.7). -/
def replayLog (agent : AgentFn) (now : Nat) (records : List DurableLogRecord) (t : ProcState) :
    ProcState :=
  records.foldl (replayRecord agent now) t

/-- Modelled from the spec: `replay(namespace, time_range, target_store)`
(spec section 4.7): read the Durable Log of the world in ascending time
order — never the Entity Store — and drive each record through the
Processing Worker logic against the target store.  Returns the (untouched)
world and the resulting target store. -/
def replayEngine (agent : AgentFn) (now : Nat) (w : World) (ns lo hi : String) (t : ProcState) :
    World × ProcState :=
  (w, replayLog agent now (listRange w.log ns lo hi) t)

/-- A fresh, empty target store whose id generator starts at the given seed. -/
def emptyProc (seed : Nat) : ProcState :=
  ⟨⟨[], [], seed⟩, []⟩

/-- The observable view of a derived entity for replay comparison: everything
except the generated id and timestamp (spec section 4.7). -/
structure DerivedObs where
  kind : EntityKind
  fields : String
  source_message_id : String
deriving DecidableEq, Repr

/-- Drop generated id and timestamp from a derived entity. -/
def obsDerived (d : Derived) : DerivedObs :=
  ⟨d.kind, d.fields, d.source_message_id⟩

/-- The observable content of a processing state: the message rows, the
derived entities up to generated ids and timestamps, and the response
queue. -/
def obsProc (p : ProcState) : List Message × List DerivedObs × List String :=
  (p.store.messages, p.store.derived.map obsDerived, p.respQueue)

/- ===== Basic lemmas about the Entity Store ===== -/

theorem findMsg_some_id {l : List Message} {mid : String} {m : Message}
    (h : findMsg l mid = some m) : m.id = mid := by
  have := List.find?_some h
  simpa using this

theorem findMsg_append {l1 l2 : List Message} {mid : String} :
    findMsg (l1 ++ l2) mid = (findMsg l1 mid).or (findMsg l2 mid) := by
  simp [findMsg, List.find?_append]

theorem getMsg_putMsgStatus (s : EntityStore) (mid q : String) (st : MsgStatus) :
    getMsg (putMsgStatus s mid st) q =
      (getMsg s q).map (fun m => if m.id == mid then { m with status := st } else m) := by
  have hfun :
      ((fun m : Message => m.id == q) ∘
        (fun m : Message => if m.id == mid then { m with status := st } else m)) =
      (fun m : Message => m.id == q) := by
    funext m
    by_cases h : (m.id == mid) = true <;> simp [Function.comp, h]
  show findMsg (s.messages.map _) q = (findMsg s.messages q).map _
  unfold findMsg
  rw [List.find?_map, hfun]

theorem getMsg_putMsgStatus_self {s : EntityStore} {mid : String} {m : Message}
    (h : getMsg s mid = some m) (st : MsgStatus) :
    getMsg (putMsgStatus s mid st) mid = some { m with status := st } := by
  have hid : m.id = mid := findMsg_some_id h
  rw [getMsg_putMsgStatus, h]
  simp [hid]

theorem getMsg_putMsgStatus_of_ne {s : EntityStore} {mid q : String} (st : MsgStatus)
    (hne : q ≠ mid) : getMsg (putMsgStatus s mid st) q = getMsg s q := by
  rw [getMsg_putMsgStatus]
  cases h : getMsg s q with
  | none => rfl
  | some m =>
    have hid : m.id = q := findMsg_some_id h
    have hb : (m.id == mid) = false := by
      rw [hid]
      exact beq_eq_false_iff_ne.mpr hne
    show some (if m.id == mid then { m with status := st } else m) = some m
    rw [hb]
    rfl

theorem getMsg_writeDerived (s : EntityStore) (mid : String) (now : Nat)
    (props : List Proposed) (q : String) :
    getMsg (writeDerived s mid now props) q = getMsg s q := rfl

theorem getMsg_putMsgIfAbsent_of_some {s : EntityStore} {q : String} {x : Message}
    (m : Message) (h : getMsg s q = some x) :
    getMsg (putMsgIfAbsent s m) q = some x := by
  unfold putMsgIfAbsent
  cases hm : getMsg s m.id with
  | some y => exact h
  | none =>
    show findMsg (s.messages ++ [m]) q = some x
    rw [findMsg_append]
    unfold getMsg at h
    rw [h]
    rfl

theorem condPutStatus_ok_inv {s s1 : EntityStore} {mid : String} {expected target : MsgStatus}
    (h : condPutStatus s mid expected target = .ok s1) :
    ∃ m, getMsg s mid = some m ∧ m.status = expected ∧ s1 = putMsgStatus s mid target := by
  unfold condPutStatus at h
  split at h
  · exact absurd h (by simp)
  · next m hm =>
    split at h
    · next hst => exact ⟨m, hm, hst, by injection h with h2; exact h2.symm⟩
    · exact absurd h (by simp)

/- ===== Status order lemmas ===== -/

theorem statusLe_refl (a : MsgStatus) : statusLe a a = true := by
  cases a <;> rfl

theorem statusLeO_refl (a : Option MsgStatus) : statusLeO a a = true := by
  cases a with
  | none => rfl
  | some x => exact statusLe_refl x

theorem statusLe_trans {a b c : MsgStatus} (h1 : statusLe a b = true)
    (h2 : statusLe b c = true) : statusLe a c = true := by
  revert h1 h2
  cases a <;> cases b <;> cases c <;> decide

theorem statusLeO_trans {a b c : Option MsgStatus} (h1 : statusLeO a b = true)
    (h2 : statusLeO b c = true) : statusLeO a c = true := by
  cases a with
  | none => cases c <;> rfl
  | some x =>
    cases b with
    | none => exact absurd h1 (by simp [statusLeO])
    | some y =>
      cases c with
      | none => exact absurd h2 (by simp [statusLeO])
      | some z => exact statusLe_trans h1 h2

/- ===== Basic lemmas about the Durable Log ===== -/

theorem logGet_mk (log : List DurableLogRecord) (ns key : String) :
    logGet log ⟨ns, key⟩ =
      (log.find? (fun r => r.ns == ns && r.key == key)).map (fun r => r.payload) := rfl

theorem logHas_eq_isSome (log : List DurableLogRecord) (ns key : String) :
    logHas log ns key = (logGet log ⟨ns, key⟩).isSome := by
  unfold logHas
  rw [logGet_mk]
  cases log.find? (fun r => r.ns == ns && r.key == key) <;> rfl

theorem logAppend_ref (log : List DurableLogRecord) (ns ts mid p : String) :
    (logAppend log ns ts mid p).2 = ⟨ns, mkLogKey ts mid⟩ := by
  unfold logAppend
  dsimp only
  split <;> rfl

theorem logAppend_fst (log : List DurableLogRecord) (ns ts mid p : String) :
    (logAppend log ns ts mid p).1 =
      if logHas log ns (mkLogKey ts mid) then log else log ++ [⟨ns, ts, mid, p⟩] := by
  unfold logAppend
  dsimp only
  split <;> simp [*]

theorem logGet_append_fresh {log : List DurableLogRecord} {ns ts mid p : String}
    (h : logGet log ⟨ns, mkLogKey ts mid⟩ = none) :
    logGet (logAppend log ns ts mid p).1 ⟨ns, mkLogKey ts mid⟩ = some p := by
  have hfind : log.find? (fun r => r.ns == ns && r.key == mkLogKey ts mid) = none := by
    rw [logGet_mk] at h
    exact Option.map_eq_none.mp h
  have hhas : logHas log ns (mkLogKey ts mid) = false := by
    rw [logHas, hfind]
    rfl
  rw [logAppend_fst, hhas]
  simp only [Bool.false_eq_true, if_false]
  rw [logGet_mk, List.find?_append, hfind]
  simp [DurableLogRecord.key]

theorem logGet_append_preserve {log : List DurableLogRecord} {ref : LogRef} {p : String}
    (ns ts mid pay : String) (h : logGet log ref = some p) :
    logGet (logAppend log ns ts mid pay).1 ref = some p := by
  rw [logAppend_fst]
  by_cases hh : logHas log ns (mkLogKey ts mid) = true
  · rw [if_pos hh]
    exact h
  · rw [if_neg hh]
    obtain ⟨r0, hr0, hp⟩ := Option.map_eq_some.mp h
    show ((log ++ [({ ns := ns, ts := ts, mid := mid, payload := pay } : DurableLogRecord)]).find?
        (fun r : DurableLogRecord => r.ns == ref.ns && r.key == ref.key)).map
        (fun r : DurableLogRecord => r.payload) = some p
    rw [List.find?_append, hr0]
    simp [hp]

theorem logGet_append_self_isSome (log : List DurableLogRecord) (ns ts mid p : String) :
    (logGet (logAppend log ns ts mid p).1 ⟨ns, mkLogKey ts mid⟩).isSome = true := by
  cases h : logGet log ⟨ns, mkLogKey ts mid⟩ with
  | none => rw [logGet_append_fresh h]; rfl
  | some q => rw [logGet_append_preserve ns ts mid p h]; rfl

theorem logAppend_idem (log : List DurableLogRecord) (ns ts mid p : String) :
    logAppend (logAppend log ns ts mid p).1 ns ts mid p =
      ((logAppend log ns ts mid p).1, ⟨ns, mkLogKey ts mid⟩) := by
  have h2 : logHas (logAppend log ns ts mid p).1 ns (mkLogKey ts mid) = true := by
    rw [logHas_eq_isSome]
    exact logGet_append_self_isSome log ns ts mid p
  have e1 : (logAppend (logAppend log ns ts mid p).1 ns ts mid p).1 =
      (logAppend log ns ts mid p).1 := by
    rw [logAppend_fst, h2]
    simp
  have e2 := logAppend_ref (logAppend log ns ts mid p).1 ns ts mid p
  calc logAppend (logAppend log ns ts mid p).1 ns ts mid p
      = ((logAppend (logAppend log ns ts mid p).1 ns ts mid p).1,
         (logAppend (logAppend log ns ts mid p).1 ns ts mid p).2) := rfl
    _ = ((logAppend log ns ts mid p).1, ⟨ns, mkLogKey ts mid⟩) := by rw [e1, e2]

theorem putMsgIfAbsent_of_some {s : EntityStore} {m x : Message}
    (h : getMsg s m.id = some x) : putMsgIfAbsent s m = s := by
  unfold putMsgIfAbsent
  rw [h]

theorem getMsg_putMsgIfAbsent_self {s : EntityStore} {m : Message}
    (h : getMsg s m.id = none) : getMsg (putMsgIfAbsent s m) m.id = some m := by
  unfold putMsgIfAbsent
  rw [h]
  show findMsg (s.messages ++ [m]) m.id = some m
  rw [findMsg_append]
  unfold getMsg at h
  rw [h]
  simp [findMsg]

theorem putMsgIfAbsent_idem (s : EntityStore) (m : Message) :
    putMsgIfAbsent (putMsgIfAbsent s m) m = putMsgIfAbsent s m := by
  cases h : getMsg s m.id with
  | some x =>
    rw [putMsgIfAbsent_of_some h]
    exact putMsgIfAbsent_of_some h
  | none => exact putMsgIfAbsent_of_some (getMsg_putMsgIfAbsent_self h)

/- ===== Processing Worker lemmas ===== -/

theorem processMessage_none {agent : AgentFn} {now : Nat} {p : ProcState} {mid : String}
    (h : getMsg p.store mid = none) : processMessage agent now p mid = p := by
  unfold processMessage
  rw [h]

theorem processMessage_done {agent : AgentFn} {now : Nat} {p : ProcState} {mid : String}
    {m : Message} (h : getMsg p.store mid = some m)
    (hd : m.status = .processed ∨ m.status = .failed) :
    processMessage agent now p mid = p := by
  unfold processMessage
  rw [h]
  simp only [if_pos hd]

theorem condPutStatus_mismatch {s : EntityStore} {mid : String} {m : Message}
    {expected target : MsgStatus} (h : getMsg s mid = some m) (hne : m.status ≠ expected) :
    condPutStatus s mid expected target = .error .conflict := by
  unfold condPutStatus
  rw [h]
  simp only [if_neg hne]

theorem condPutStatus_match {s : EntityStore} {mid : String} {m : Message}
    {expected : MsgStatus} (target : MsgStatus) (h : getMsg s mid = some m)
    (he : m.status = expected) :
    condPutStatus s mid expected target = .ok (putMsgStatus s mid target) := by
  unfold condPutStatus
  rw [h]
  simp only [if_pos he]

theorem processMessage_stuck {agent : AgentFn} {now : Nat} {p : ProcState} {mid : String}
    {m : Message} (h : getMsg p.store mid = some m)
    (hd : ¬(m.status = .processed ∨ m.status = .failed)) (hr : m.status ≠ .received) :
    processMessage agent now p mid = p := by
  unfold processMessage
  rw [h]
  simp only [if_neg hd]
  rw [condPutStatus_mismatch h hr]

theorem processMessage_run_ok {agent : AgentFn} {now : Nat} {p : ProcState} {mid : String}
    {m : Message} {props : List Proposed} (h : getMsg p.store mid = some m)
    (hr : m.status = .received) (ha : agent m.raw_text = .ok props) :
    processMessage agent now p mid =
      ⟨putMsgStatus (writeDerived (putMsgStatus p.store mid .processing) mid now props)
         mid .processed,
       p.respQueue ++ [mid]⟩ := by
  have hd : ¬(m.status = .processed ∨ m.status = .failed) := by
    rw [hr]
    decide
  unfold processMessage
  rw [h]
  simp only [if_neg hd]
  rw [condPutStatus_match .processing h hr, ha]

theorem processMessage_run_err {agent : AgentFn} {now : Nat} {p : ProcState} {mid : String}
    {m : Message} {e : Unit} (h : getMsg p.store mid = some m)
    (hr : m.status = .received) (ha : agent m.raw_text = .error e) :
    processMessage agent now p mid =
      ⟨putMsgStatus (putMsgStatus p.store mid .processing) mid .failed,
       p.respQueue ++ [mid]⟩ := by
  have hd : ¬(m.status = .processed ∨ m.status = .failed) := by
    rw [hr]
    decide
  unfold processMessage
  rw [h]
  simp only [if_neg hd]
  rw [condPutStatus_match .processing h hr, ha]

/-- Claim C1: processing a Message is idempotent: a second Processing Worker
run on the same message id (duplicate queue delivery) leaves the state — and
in particular the set of derived entities traced to that message — exactly as
the first run left it: the second run sees status `processed` or `failed`,
acks and exits without creating entities. -/
theorem processing_idempotent (agent : AgentFn) (n1 n2 : Nat) (p : ProcState) (mid : String) :
    processMessage agent n2 (processMessage agent n1 p mid) mid =
      processMessage agent n1 p mid ∧
    derivedFor (processMessage agent n2 (processMessage agent n1 p mid) mid).store mid =
      derivedFor (processMessage agent n1 p mid).store mid := by
  have main : processMessage agent n2 (processMessage agent n1 p mid) mid =
      processMessage agent n1 p mid := by
    cases h : getMsg p.store mid with
    | none => rw [processMessage_none h, processMessage_none h]
    | some m =>
      by_cases hd : m.status = .processed ∨ m.status = .failed
      · rw [processMessage_done h hd, processMessage_done h hd]
      · by_cases hr : m.status = .received
        · cases ha : agent m.raw_text with
          | ok props =>
            rw [processMessage_run_ok h hr ha]
            have h1 : getMsg (putMsgStatus p.store mid .processing) mid =
                some { m with status := .processing } := getMsg_putMsgStatus_self h .processing
            have h2 : getMsg (writeDerived (putMsgStatus p.store mid .processing) mid n1 props)
                mid = some { m with status := .processing } := by
              rw [getMsg_writeDerived]
              exact h1
            have h3 := getMsg_putMsgStatus_self h2 .processed
            exact processMessage_done h3 (Or.inl rfl)
          | error e =>
            rw [processMessage_run_err h hr ha]
            have h1 : getMsg (putMsgStatus p.store mid .processing) mid =
                some { m with status := .processing } := getMsg_putMsgStatus_self h .processing
            have h3 := getMsg_putMsgStatus_self h1 .failed
            exact processMessage_done h3 (Or.inr rfl)
        · rw [processMessage_stuck h hd hr, processMessage_stuck h hd hr]
  exact ⟨main, by rw [main]⟩

/- ===== Status monotonicity (claim C2) ===== -/

theorem statusLeO_none (x : Option MsgStatus) : statusLeO none x = true := rfl

theorem statusLeO_processMessage (agent : AgentFn) (now : Nat) (p : ProcState)
    (mid q : String) :
    statusLeO ((getMsg p.store q).map Message.status)
      ((getMsg (processMessage agent now p mid).store q).map Message.status) = true := by
  cases h : getMsg p.store mid with
  | none =>
    rw [processMessage_none h]
    exact statusLeO_refl _
  | some m =>
    by_cases hd : m.status = .processed ∨ m.status = .failed
    · rw [processMessage_done h hd]
      exact statusLeO_refl _
    · by_cases hr : m.status = .received
      · cases ha : agent m.raw_text with
        | ok props =>
          rw [processMessage_run_ok h hr ha]
          by_cases hq : q = mid
          · subst hq
            have h1 := getMsg_putMsgStatus_self h MsgStatus.processing
            have h2 : getMsg (writeDerived (putMsgStatus p.store q .processing) q now props)
                q = some { m with status := .processing } := by
              rw [getMsg_writeDerived]
              exact h1
            have h3 := getMsg_putMsgStatus_self h2 MsgStatus.processed
            show statusLeO ((getMsg p.store q).map Message.status)
              ((getMsg (putMsgStatus (writeDerived (putMsgStatus p.store q .processing)
                q now props) q .processed) q).map Message.status) = true
            rw [h, h3]
            show statusLeO (some m.status) (some .processed) = true
            rw [hr]
            rfl
          · show statusLeO ((getMsg p.store q).map Message.status)
              ((getMsg (putMsgStatus (writeDerived (putMsgStatus p.store mid .processing)
                mid now props) mid .processed) q).map Message.status) = true
            rw [getMsg_putMsgStatus_of_ne _ hq, getMsg_writeDerived,
              getMsg_putMsgStatus_of_ne _ hq]
            exact statusLeO_refl _
        | error e =>
          rw [processMessage_run_err h hr ha]
          by_cases hq : q = mid
          · subst hq
            have h1 := getMsg_putMsgStatus_self h MsgStatus.processing
            have h3 := getMsg_putMsgStatus_self h1 MsgStatus.failed
            show statusLeO ((getMsg p.store q).map Message.status)
              ((getMsg (putMsgStatus (putMsgStatus p.store q .processing) q .failed)
                q).map Message.status) = true
            rw [h, h3]
            show statusLeO (some m.status) (some .failed) = true
            rw [hr]
            rfl
          · show statusLeO ((getMsg p.store q).map Message.status)
              ((getMsg (putMsgStatus (putMsgStatus p.store mid .processing) mid .failed)
                q).map Message.status) = true
            rw [getMsg_putMsgStatus_of_ne _ hq, getMsg_putMsgStatus_of_ne _ hq]
            exact statusLeO_refl _
      · rw [processMessage_stuck h hd hr]
        exact statusLeO_refl _

theorem statusLeO_putMsgIfAbsent (s : EntityStore) (m : Message) (q : String) :
    statusLeO ((getMsg s q).map Message.status)
      ((getMsg (putMsgIfAbsent s m) q).map Message.status) = true := by
  cases h : getMsg s q with
  | none => exact statusLeO_none _
  | some x =>
    rw [getMsg_putMsgIfAbsent_of_some m h]
    exact statusLeO_refl _

theorem ingress_store_cases (flags : FailFlags) (w : World) (ns mid ts raw : String) :
    (ingressReceive flags w ns mid ts raw).1.store = w.store ∨
    ∃ msg : Message, (ingressReceive flags w ns mid ts raw).1.store =
      putMsgIfAbsent w.store msg := by
  obtain ⟨lf, sf, ef⟩ := flags
  cases lf
  · cases sf
    · cases ef
      · right
        exact ⟨_, rfl⟩
      · right
        exact ⟨_, rfl⟩
    · left
      rfl
  · left
    rfl

theorem statusLeO_condPutStep (s : EntityStore) (mid q : String)
    (expected target : MsgStatus) (hle : statusLe expected target = true) :
    statusLeO ((getMsg s q).map Message.status)
      ((getMsg (applyCondPut s mid expected target) q).map Message.status) = true := by
  unfold applyCondPut
  cases hc : condPutStatus s mid expected target with
  | error e => exact statusLeO_refl _
  | ok s1 =>
    obtain ⟨m, hm, hst, rfl⟩ := condPutStatus_ok_inv hc
    by_cases hq : q = mid
    · subst hq
      rw [hm, getMsg_putMsgStatus_self hm]
      show statusLe m.status target = true
      rw [hst]
      exact hle
    · rw [getMsg_putMsgStatus_of_ne _ hq]
      exact statusLeO_refl _

/-- One pipeline operation never moves any Message status backward. -/
theorem applyOp_mono (op : Op) (w : World) (q : String) :
    statusLeO (statusOf w q) (statusOf (applyOp w op) q) = true := by
  cases op with
  | ingress flags ns mid ts raw =>
    show statusLeO (statusOf w q)
      ((getMsg (ingressReceive flags w ns mid ts raw).1.store q).map Message.status) = true
    rcases ingress_store_cases flags w ns mid ts raw with h | ⟨msg, h⟩
    · rw [h]
      exact statusLeO_refl _
    · rw [h]
      exact statusLeO_putMsgIfAbsent w.store msg q
  | work agent now mid => exact statusLeO_processMessage agent now ⟨w.store, w.respQueue⟩ mid q
  | dispatch mid =>
    show statusLeO ((getMsg w.store q).map Message.status)
      ((getMsg (dispatchResponse w mid).store q).map Message.status) = true
    unfold dispatchResponse
    cases hc : condPutStatus w.store mid .processed .sent with
    | ok s1 =>
      have := statusLeO_condPutStep w.store mid q .processed .sent rfl
      unfold applyCondPut at this
      rw [hc] at this
      exact this
    | error e =>
      cases hc2 : condPutStatus w.store mid .failed .sent with
      | ok s1 =>
        have := statusLeO_condPutStep w.store mid q .failed .sent rfl
        unfold applyCondPut at this
        rw [hc2] at this
        exact this
      | error e2 => exact statusLeO_refl _
  | archive mid =>
    show statusLeO ((getMsg w.store q).map Message.status)
      ((getMsg (archiveMessage w mid).store q).map Message.status) = true
    unfold archiveMessage
    cases hc : condPutStatus w.store mid .sent .archived with
    | ok s1 =>
      have := statusLeO_condPutStep w.store mid q .sent .archived rfl
      unfold applyCondPut at this
      rw [hc] at this
      exact this
    | error e => exact statusLeO_refl _

/-- Claim C2: along every sequence of Ingress Receiver, Processing Worker,
Response Dispatcher (and archival) operations, every Message status only
moves forward along `received → processing → processed|failed → sent →
archived`; no reachable transition moves a status backward. -/
theorem message_status_monotonic (ops : List Op) (w : World) (mid : String) :
    statusLeO (statusOf w mid) (statusOf (runOps ops w) mid) = true := by
  induction ops generalizing w with
  | nil => exact statusLeO_refl _
  | cons op ops ih =>
    exact statusLeO_trans (applyOp_mono op w mid) (ih (applyOp w op))

/-- Claim C5: a conditional `put` whose expected prior status does not match
the stored status fails with `Conflict` and leaves the stored record
unchanged; and this check is what stops two workers from both transitioning
the same Message out of `received`: after one worker wins the
`received → processing` race, the same conditional put by a second worker
fails with `Conflict`. -/
theorem conditional_put_conflict :
    (∀ (s : EntityStore) (mid : String) (m : Message) (expected target : MsgStatus),
        getMsg s mid = some m → m.status ≠ expected →
        condPutStatus s mid expected target = .error .conflict ∧
        applyCondPut s mid expected target = s) ∧
    (∀ (s : EntityStore) (mid : String) (m : Message),
        getMsg s mid = some m → m.status = .received →
        ∃ s1, condPutStatus s mid .received .processing = .ok s1 ∧
          condPutStatus s1 mid .received .processing = .error .conflict) := by
  constructor
  · intro s mid m expected target hm hne
    have h1 := @condPutStatus_mismatch s mid m expected target hm hne
    refine ⟨h1, ?_⟩
    unfold applyCondPut
    rw [h1]
  · intro s mid m hm hst
    refine ⟨putMsgStatus s mid .processing, condPutStatus_match .processing hm hst, ?_⟩
    have h2 := getMsg_putMsgStatus_self hm MsgStatus.processing
    exact condPutStatus_mismatch h2 (by simp)

/-- Witness for C5 at a concrete store: a message in status `processed`
rejects a put expecting `received`, and a fresh `received` message accepts
exactly one `received → processing` transition. -/
theorem conditional_put_conflict_witness :
    (getMsg ⟨[⟨"u", "m1", "hi", ⟨"u", "t#m1"⟩, .processed, "t"⟩], [], 0⟩ "m1" =
      some ⟨"u", "m1", "hi", ⟨"u", "t#m1"⟩, .processed, "t"⟩) ∧
    (MsgStatus.processed ≠ MsgStatus.received) ∧
    condPutStatus ⟨[⟨"u", "m1", "hi", ⟨"u", "t#m1"⟩, .processed, "t"⟩], [], 0⟩ "m1"
      .received .processing = .error .conflict ∧
    (getMsg ⟨[⟨"u", "m2", "hi", ⟨"u", "t#m2"⟩, .received, "t"⟩], [], 0⟩ "m2" =
      some ⟨"u", "m2", "hi", ⟨"u", "t#m2"⟩, .received, "t"⟩) ∧
    (∃ s1, condPutStatus ⟨[⟨"u", "m2", "hi", ⟨"u", "t#m2"⟩, .received, "t"⟩], [], 0⟩ "m2"
        .received .processing = .ok s1 ∧
      condPutStatus s1 "m2" .received .processing = .error .conflict) := by
  refine ⟨by decide, by decide, ?_, by decide, ?_⟩
  · exact (conditional_put_conflict.1 ⟨[⟨"u", "m1", "hi", ⟨"u", "t#m1"⟩, .processed, "t"⟩], [], 0⟩
      "m1" ⟨"u", "m1", "hi", ⟨"u", "t#m1"⟩, .processed, "t"⟩ .received .processing
      (by decide) (by decide)).1
  · exact conditional_put_conflict.2 ⟨[⟨"u", "m2", "hi", ⟨"u", "t#m2"⟩, .received, "t"⟩], [], 0⟩
      "m2" ⟨"u", "m2", "hi", ⟨"u", "t#m2"⟩, .received, "t"⟩ (by decide) (by decide)

/-- Claim C4: Durable Log round-trip: an `append` returns a stable reference
that reads back exactly the payload submitted; later appends never disturb a
stored record (no update, no delete); and an ingress `receive` followed by
`get` through the stored message reference returns exactly the submitted
raw text. -/
theorem durable_log_roundtrip :
    (∀ (log : List DurableLogRecord) (ns ts mid payload : String),
        logGet log ⟨ns, mkLogKey ts mid⟩ = none →
        logGet (logAppend log ns ts mid payload).1 (logAppend log ns ts mid payload).2 =
          some payload) ∧
    (∀ (log : List DurableLogRecord) (ref : LogRef) (p ns ts mid payload : String),
        logGet log ref = some p →
        logGet (logAppend log ns ts mid payload).1 ref = some p) ∧
    (∀ (w : World) (ns mid ts raw : String),
        logGet w.log ⟨ns, mkLogKey ts mid⟩ = none →
        getMsg w.store mid = none →
        ∃ m, getMsg (ingressReceive FailFlags.allOk w ns mid ts raw).1.store mid = some m ∧
          logGet (ingressReceive FailFlags.allOk w ns mid ts raw).1.log m.log_reference =
            some raw) := by
  refine ⟨?_, ?_, ?_⟩
  · intro log ns ts mid payload h
    rw [logAppend_ref]
    exact logGet_append_fresh h
  · intro log ref p ns ts mid payload h
    exact logGet_append_preserve ns ts mid payload h
  · intro w ns mid ts raw hlog hstore
    refine ⟨⟨ns, mid, raw, (logAppend w.log ns ts mid raw).2, .received, ts⟩, ?_, ?_⟩
    · show getMsg (putMsgIfAbsent w.store
        ⟨ns, mid, raw, (logAppend w.log ns ts mid raw).2, .received, ts⟩) mid = _
      exact getMsg_putMsgIfAbsent_self hstore
    · show logGet (logAppend w.log ns ts mid raw).1 (logAppend w.log ns ts mid raw).2 = some raw
      rw [logAppend_ref]
      exact logGet_append_fresh hlog

/-- Witness for C4 at a concrete log and world: appending to the empty log
and receiving into the empty world read back the submitted payload. -/
theorem durable_log_roundtrip_witness :
    (logGet ([] : List DurableLogRecord) ⟨"u", mkLogKey "t1" "m1"⟩ = none) ∧
    logGet (logAppend [] "u" "t1" "m1" "hello").1 (logAppend [] "u" "t1" "m1" "hello").2 =
      some "hello" ∧
    (∃ m, getMsg (ingressReceive FailFlags.allOk ⟨[], ⟨[], [], 0⟩, [], []⟩
          "u" "m1" "t1" "hello").1.store "m1" = some m ∧
        logGet (ingressReceive FailFlags.allOk ⟨[], ⟨[], [], 0⟩, [], []⟩
          "u" "m1" "t1" "hello").1.log m.log_reference = some "hello") := by
  refine ⟨by decide, ?_, ?_⟩
  · exact durable_log_roundtrip.1 [] "u" "t1" "m1" "hello" (by decide)
  · exact durable_log_roundtrip.2.2 ⟨[], ⟨[], [], 0⟩, [], []⟩ "u" "m1" "t1" "hello"
      (by decide) (by decide)

/- ===== Work Queue lemmas (claims C3 and C9) ===== -/

theorem deliverAttempt_single_keep {M c : Nat} (i e : Nat) (d : List QItem)
    (h : ¬ M < c + 1) :
    deliverAttempt ⟨M, [⟨i, c, e⟩], d⟩ i = (⟨M, [⟨i, c + 1, e⟩], d⟩, some ⟨i, c + 1, e⟩) := by
  unfold deliverAttempt
  simp [List.find?, h]

theorem deliverAttempt_single_move {M c : Nat} (i e : Nat) (d : List QItem)
    (h : M < c + 1) :
    deliverAttempt ⟨M, [⟨i, c, e⟩], d⟩ i = (⟨M, [], d ++ [⟨i, c + 1, e⟩]⟩, none) := by
  unfold deliverAttempt
  simp [List.find?, h]

theorem iterDeliver_single {M : Nat} (n : Nat) {c : Nat} (i e : Nat) (d : List QItem)
    (h : c + n ≤ M) :
    iterDeliver n ⟨M, [⟨i, c, e⟩], d⟩ i = ⟨M, [⟨i, c + n, e⟩], d⟩ := by
  induction n generalizing c with
  | zero => rfl
  | succ n ih =>
    have h1 : ¬ M < c + 1 := by omega
    show iterDeliver n (deliverAttempt ⟨M, [⟨i, c, e⟩], d⟩ i).1 i = _
    rw [deliverAttempt_single_keep i e d h1]
    have h2 : c + 1 + n ≤ M := by omega
    rw [ih h2]
    have h3 : c + 1 + n = c + (n + 1) := by omega
    rw [h3]

theorem iterDeliver_add (m n : Nat) (q : SBQueue) (i : Nat) :
    iterDeliver (m + n) q i = iterDeliver n (iterDeliver m q i) i := by
  induction m generalizing q with
  | zero => rw [Nat.zero_add]; rfl
  | succ m ih =>
    have h : m + 1 + n = (m + n) + 1 := by omega
    rw [h]
    show iterDeliver (m + n) (deliverAttempt q i).1 i = _
    rw [ih]
    rfl

/-- Claim C3: the per-item receive counter of the primary message queue
increments on each delivery, and the item redelivered past the configured
`maxReceiveCount` of 3 (from second-brain-app.ts: one initial delivery plus
3 redeliveries without `ack`) is moved to the dead-letter queue, is absent
from the primary queue, and is never again delivered to normal consumers. -/
theorem dead_letter_threshold :
    (∀ (i e k : Nat), k ≤ messageQueueMaxReceiveCount →
        primaryCount (iterDeliver k (mkMessageQueue i e) i) i = some k ∧
        inDLQ (iterDeliver k (mkMessageQueue i e) i) i = false) ∧
    (∀ (i e : Nat),
        inDLQ (iterDeliver (messageQueueMaxReceiveCount + 1) (mkMessageQueue i e) i) i = true ∧
        inPrimary (iterDeliver (messageQueueMaxReceiveCount + 1) (mkMessageQueue i e) i) i =
          false ∧
        deliverAttempt (iterDeliver (messageQueueMaxReceiveCount + 1) (mkMessageQueue i e) i) i =
          (iterDeliver (messageQueueMaxReceiveCount + 1) (mkMessageQueue i e) i, none)) := by
  have hq : ∀ i e : Nat, mkMessageQueue i e = ⟨3, [⟨i, 0, e⟩], []⟩ := by
    intro i e
    show enqueueItem ⟨3, [], []⟩ i e = _
    unfold enqueueItem
    rfl
  have hmax : messageQueueMaxReceiveCount = 3 := rfl
  constructor
  · intro i e k hk
    rw [hmax] at hk
    rw [hq]
    have h0 : (0 : Nat) + k ≤ 3 := by omega
    rw [iterDeliver_single k i e [] h0]
    constructor
    · show primaryCount ⟨3, [⟨i, 0 + k, e⟩], []⟩ i = some k
      unfold primaryCount
      simp [List.find?]
    · rfl
  · intro i e
    rw [hq, hmax, show (3 : Nat) + 1 = 4 from rfl]
    have h4 : iterDeliver 4 ⟨3, [⟨i, 0, e⟩], []⟩ i = ⟨3, [], [⟨i, 4, e⟩]⟩ := by
      have e1 : (4 : Nat) = 3 + 1 := rfl
      rw [e1, iterDeliver_add 3 1 _ i, iterDeliver_single 3 i e [] (by omega)]
      show (deliverAttempt ⟨3, [⟨i, 0 + 3, e⟩], []⟩ i).1 = _
      rw [deliverAttempt_single_move i e [] (by omega)]
      rfl
    rw [h4]
    refine ⟨?_, rfl, rfl⟩
    unfold inDLQ
    simp

/-- Witness for C3 at a concrete item: item 7 enqueued at time 5, with two
deliveries, then past the threshold. -/
theorem dead_letter_threshold_witness :
    ((2 : Nat) ≤ messageQueueMaxReceiveCount) ∧
    primaryCount (iterDeliver 2 (mkMessageQueue 7 5) 7) 7 = some 2 ∧
    inDLQ (iterDeliver (messageQueueMaxReceiveCount + 1) (mkMessageQueue 7 5) 7) 7 = true ∧
    inPrimary (iterDeliver (messageQueueMaxReceiveCount + 1) (mkMessageQueue 7 5) 7) 7 =
      false := by
  refine ⟨by decide, ?_, ?_, ?_⟩
  · exact (dead_letter_threshold.1 7 5 2 (by decide)).1
  · exact (dead_letter_threshold.2 7 5).1
  · exact (dead_letter_threshold.2 7 5).2.1

/-- Claim C9: the primary processing queue is configured with a 1 hour
retention period while its dead-letter queue retains for 14 days
(second-brain-app.ts, lines 80-107); an item that sits in the primary queue
past the retention period is discarded from the primary queue, and expiry
never moves anything into the dead-letter queue. -/
theorem queue_retention_config :
    messageQueueConfig.retentionPeriodHours = 1 ∧
    messageQueueDLQConfig.retentionPeriodHours = 14 * 24 ∧
    (∀ (q : SBQueue) (i now ret : Nat),
        inDLQ q i = false →
        (∀ it ∈ q.primary, it.id = i → it.enqueuedAt + ret ≤ now) →
        inPrimary (expireOld q now ret) i = false ∧
        inDLQ (expireOld q now ret) i = false) := by
  refine ⟨rfl, rfl, ?_⟩
  intro q i now ret hdlq hold
  constructor
  · unfold inPrimary expireOld
    rw [List.any_eq_false]
    intro x hx
    rw [List.mem_filter] at hx
    obtain ⟨hmem, hkeep⟩ := hx
    intro hid
    have hxid : x.id = i := by simpa using hid
    have := hold x hmem hxid
    have hlt : now < x.enqueuedAt + ret := by simpa using hkeep
    omega
  · exact hdlq

/-- Witness for C9 at a concrete queue: one item enqueued at time 0, expired
at time 7200 with a 3600 second retention. -/
theorem queue_retention_config_witness :
    (inDLQ ⟨3, [⟨1, 0, 0⟩], []⟩ 1 = false) ∧
    (∀ it ∈ (⟨3, [⟨1, 0, 0⟩], []⟩ : SBQueue).primary, it.id = 1 →
      it.enqueuedAt + 3600 ≤ 7200) ∧
    inPrimary (expireOld ⟨3, [⟨1, 0, 0⟩], []⟩ 7200 3600) 1 = false ∧
    inDLQ (expireOld ⟨3, [⟨1, 0, 0⟩], []⟩ 7200 3600) 1 = false := by
  refine ⟨by decide, by decide, ?_⟩
  exact queue_retention_config.2.2 ⟨3, [⟨1, 0, 0⟩], []⟩ 1 7200 3600 (by decide) (by decide)

/-- Claim C10: instantiating SecondBrainApp with TELEGRAM_SECRET_TOKEN unset
or empty throws before defining any resources; when the variable is set, the
message handler lambda receives it in its environment
(second-brain-app.ts, lines 42-49 and 161-177). -/
theorem telegram_token_required :
    (∀ (pr ld : Bool) (dt db : String),
        secondBrainApp none pr ld dt db = .error telegramTokenErrorMessage) ∧
    (∀ (pr ld : Bool) (dt db : String),
        secondBrainApp (some "") pr ld dt db = .error telegramTokenErrorMessage) ∧
    (∀ (t dt db : String), t ≠ "" →
        ∃ r, secondBrainApp (some t) true true dt db = .ok r ∧
          ("TELEGRAM_SECRET_TOKEN", t) ∈ r.messageHandlerEnv) := by
  refine ⟨?_, ?_, ?_⟩
  · intro pr ld dt db
    rfl
  · intro pr ld dt db
    rfl
  · intro t dt db ht
    have hfalsy : jsFalsy (some t) = false := by
      unfold jsFalsy
      exact beq_eq_false_iff_ne.mpr ht
    refine ⟨{ responseQueue := responseQueueConfig
              messageQueueDLQ := messageQueueDLQConfig
              messageQueue := messageQueueConfig
              messageHandlerEnv :=
                [("DYNAMODB_TABLE_NAME", dt), ("S3_BUCKET_NAME", db),
                 ("MESSAGE_QUEUE_URL", messageQueueConfig.queueName),
                 ("TELEGRAM_SECRET_TOKEN", t)],
              processingEnv :=
                [("DYNAMODB_TABLE_NAME", dt), ("S3_BUCKET_NAME", db),
                 ("RESPONSE_QUEUE_URL", responseQueueConfig.queueName),
                 ("BEDROCK_AGENT_FUNCTION_NAME", "bedrock-agent-runtime")] }, ?_, ?_⟩
    · unfold secondBrainApp
      rw [hfalsy]
      rfl
    · simp

/-- Witness for C10 at the concrete token value used in deployment docs. -/
theorem telegram_token_required_witness :
    (secondBrainApp none true true "second-brain" "second-brain-data-twoquarterrican" =
      .error telegramTokenErrorMessage) ∧
    ("tok" ≠ "") ∧
    (∃ r, secondBrainApp (some "tok") true true "second-brain"
        "second-brain-data-twoquarterrican" = .ok r ∧
      ("TELEGRAM_SECRET_TOKEN", "tok") ∈ r.messageHandlerEnv) := by
  refine ⟨telegram_token_required.1 true true _ _, by decide, ?_⟩
  exact telegram_token_required.2.2 "tok" "second-brain" "second-brain-data-twoquarterrican"
    (by decide)

/-- Claim C7: replay frame condition: `replay(namespace, time_range, target)`
leaves the world — Durable Log and production Entity Store — unchanged, and
its output depends only on the Durable Log, never on the production Entity
Store: two worlds with the same log replay to the same target result. -/
theorem replay_frame (agent : AgentFn) (now : Nat) (w : World) (ns lo hi : String)
    (t : ProcState) :
    (replayEngine agent now w ns lo hi t).1 = w ∧
    (∀ w2 : World, w2.log = w.log →
        (replayEngine agent now w2 ns lo hi t).2 = (replayEngine agent now w ns lo hi t).2) := by
  refine ⟨rfl, ?_⟩
  intro w2 h
  show replayLog agent now (listRange w2.log ns lo hi) t = _
  rw [h]
  rfl

/-- Witness for C7 at two concrete worlds sharing a log but with different
production stores. -/
theorem replay_frame_witness :
    ((replayEngine (fun _ => .ok []) 0
        ⟨[⟨"u", "t1", "m1", "hello"⟩], ⟨[], [], 0⟩, [], []⟩ "u" "" "zz" (emptyProc 0)).1 =
      ⟨[⟨"u", "t1", "m1", "hello"⟩], ⟨[], [], 0⟩, [], []⟩) ∧
    ((⟨[⟨"u", "t1", "m1", "hello"⟩], ⟨[], [], 5⟩, ["x"], []⟩ : World).log =
      (⟨[⟨"u", "t1", "m1", "hello"⟩], ⟨[], [], 0⟩, [], []⟩ : World).log) ∧
    (replayEngine (fun _ => .ok []) 0
        ⟨[⟨"u", "t1", "m1", "hello"⟩], ⟨[], [], 5⟩, ["x"], []⟩ "u" "" "zz" (emptyProc 0)).2 =
      (replayEngine (fun _ => .ok []) 0
        ⟨[⟨"u", "t1", "m1", "hello"⟩], ⟨[], [], 0⟩, [], []⟩ "u" "" "zz" (emptyProc 0)).2 := by
  refine ⟨(replay_frame (fun _ => .ok []) 0
      ⟨[⟨"u", "t1", "m1", "hello"⟩], ⟨[], [], 0⟩, [], []⟩ "u" "" "zz" (emptyProc 0)).1, rfl, ?_⟩
  exact (replay_frame (fun _ => .ok []) 0
      ⟨[⟨"u", "t1", "m1", "hello"⟩], ⟨[], [], 0⟩, [], []⟩ "u" "" "zz" (emptyProc 0)).2
      ⟨[⟨"u", "t1", "m1", "hello"⟩], ⟨[], [], 5⟩, ["x"], []⟩ rfl

/- ===== Replay determinism (claim C6) ===== -/

theorem obsProc_components {t1 t2 : ProcState} (h : obsProc t1 = obsProc t2) :
    t1.store.messages = t2.store.messages ∧
    t1.store.derived.map obsDerived = t2.store.derived.map obsDerived ∧
    t1.respQueue = t2.respQueue :=
  ⟨congrArg (fun x => x.1) h, congrArg (fun x => x.2.1) h, congrArg (fun x => x.2.2) h⟩

theorem getMsg_congr {t1 t2 : ProcState} (mid : String)
    (hm : t1.store.messages = t2.store.messages) :
    getMsg t1.store mid = getMsg t2.store mid := by
  show findMsg t1.store.messages mid = findMsg t2.store.messages mid
  rw [hm]

theorem obsProc_processMessage_congr (agent : AgentFn) (n1 n2 : Nat) (t1 t2 : ProcState)
    (mid : String) (h : obsProc t1 = obsProc t2) :
    obsProc (processMessage agent n1 t1 mid) = obsProc (processMessage agent n2 t2 mid) := by
  obtain ⟨hm, hd, hr⟩ := obsProc_components h
  have hget := getMsg_congr mid hm
  cases hg : getMsg t1.store mid with
  | none =>
    rw [processMessage_none hg, processMessage_none (hget.symm.trans hg)]
    exact h
  | some m =>
    have hg2 : getMsg t2.store mid = some m := hget.symm.trans hg
    by_cases hdone : m.status = .processed ∨ m.status = .failed
    · rw [processMessage_done hg hdone, processMessage_done hg2 hdone]
      exact h
    · by_cases hrec : m.status = .received
      · cases ha : agent m.raw_text with
        | ok props =>
          rw [processMessage_run_ok hg hrec ha, processMessage_run_ok hg2 hrec ha]
          unfold obsProc putMsgStatus writeDerived
          dsimp only
          rw [hm, hr, List.map_append, List.map_append, hd]
          simp only [List.map_map]
          rfl
        | error e =>
          rw [processMessage_run_err hg hrec ha, processMessage_run_err hg2 hrec ha]
          unfold obsProc putMsgStatus
          dsimp only
          rw [hm, hr, hd]
      · rw [processMessage_stuck hg hdone hrec, processMessage_stuck hg2 hdone hrec]
        exact h

theorem obsProc_putMsgIfAbsent_congr (t1 t2 : ProcState) (msg : Message)
    (h : obsProc t1 = obsProc t2) :
    obsProc ⟨putMsgIfAbsent t1.store msg, t1.respQueue⟩ =
      obsProc ⟨putMsgIfAbsent t2.store msg, t2.respQueue⟩ := by
  obtain ⟨hm, hd, hr⟩ := obsProc_components h
  have hget := getMsg_congr msg.id hm
  unfold obsProc putMsgIfAbsent
  cases hg : getMsg t1.store msg.id with
  | none =>
    rw [hget.symm.trans hg]
    dsimp only
    rw [hm, hd, hr]
  | some x =>
    rw [hget.symm.trans hg]
    dsimp only
    rw [hm, hd, hr]

theorem obsProc_replayRecord_congr (agent : AgentFn) (n1 n2 : Nat) (t1 t2 : ProcState)
    (r : DurableLogRecord) (h : obsProc t1 = obsProc t2) :
    obsProc (replayRecord agent n1 t1 r) = obsProc (replayRecord agent n2 t2 r) := by
  unfold replayRecord
  exact obsProc_processMessage_congr agent n1 n2 _ _ r.mid
    (obsProc_putMsgIfAbsent_congr t1 t2 _ h)

theorem replayLog_obs_congr (agent : AgentFn) (n1 n2 : Nat)
    (records : List DurableLogRecord) (t1 t2 : ProcState) (h : obsProc t1 = obsProc t2) :
    obsProc (replayLog agent n1 records t1) = obsProc (replayLog agent n2 records t2) := by
  induction records generalizing t1 t2 with
  | nil => exact h
  | cons r rs ih =>
    show obsProc (replayLog agent n1 rs (replayRecord agent n1 t1 r)) = _
    exact ih _ _ (obsProc_replayRecord_congr agent n1 n2 t1 t2 r h)

/-- Claim C6: replay determinism: replaying a fixed Durable Log with a fixed
agent behaviour into an empty target store twice — with different generated
id seeds and different clocks on the two runs — yields observably equal
results: the same message rows, the same derived entities up to generated
ids and timestamps, and in particular the same entity counts. -/
theorem replay_deterministic (agent : AgentFn) (w : World) (ns lo hi : String)
    (n1 n2 g1 g2 : Nat) :
    obsProc (replayEngine agent n1 w ns lo hi (emptyProc g1)).2 =
      obsProc (replayEngine agent n2 w ns lo hi (emptyProc g2)).2 ∧
    (replayEngine agent n1 w ns lo hi (emptyProc g1)).2.store.derived.length =
      (replayEngine agent n2 w ns lo hi (emptyProc g2)).2.store.derived.length := by
  have h : obsProc (replayEngine agent n1 w ns lo hi (emptyProc g1)).2 =
      obsProc (replayEngine agent n2 w ns lo hi (emptyProc g2)).2 :=
    replayLog_obs_congr agent n1 n2 (listRange w.log ns lo hi) (emptyProc g1) (emptyProc g2) rfl
  refine ⟨h, ?_⟩
  have h2 := (obsProc_components h).2.1
  have h3 := congrArg List.length h2
  simpa using h3

/- ===== Ingress receive failure semantics (claim C8) ===== -/

theorem logGet_append_isSome {log : List DurableLogRecord} {ref : LogRef}
    (ns ts mid pay : String) (h : (logGet log ref).isSome = true) :
    (logGet (logAppend log ns ts mid pay).1 ref).isSome = true := by
  obtain ⟨p, hp⟩ := Option.isSome_iff_exists.mp h
  rw [logGet_append_preserve ns ts mid pay hp]
  rfl

/-- Log provenance: every retained Message row reads back a Durable Log
record through its stored log reference (spec section 7). -/
def logProvenance (w : World) : Prop :=
  ∀ m ∈ w.store.messages, (logGet w.log m.log_reference).isSome = true

theorem provenance_store_step (w : World) (ns mid ts raw : String)
    (hprov : logProvenance w) :
    ∀ m ∈ (putMsgIfAbsent w.store
        ⟨ns, mid, raw, (logAppend w.log ns ts mid raw).2, .received, ts⟩).messages,
      (logGet (logAppend w.log ns ts mid raw).1 m.log_reference).isSome = true := by
  intro m hm
  unfold putMsgIfAbsent at hm
  cases hg : getMsg w.store
      (⟨ns, mid, raw, (logAppend w.log ns ts mid raw).2, .received, ts⟩ : Message).id with
  | some x =>
    rw [hg] at hm
    exact logGet_append_isSome ns ts mid raw (hprov m hm)
  | none =>
    rw [hg] at hm
    rcases List.mem_append.mp hm with hm1 | hm2
    · exact logGet_append_isSome ns ts mid raw (hprov m hm1)
    · have hmsg : m = ⟨ns, mid, raw, (logAppend w.log ns ts mid raw).2, .received, ts⟩ :=
        List.mem_singleton.mp hm2
      rw [hmsg]
      show (logGet (logAppend w.log ns ts mid raw).1 (logAppend w.log ns ts mid raw).2).isSome
        = true
      rw [logAppend_ref]
      exact logGet_append_self_isSome w.log ns ts mid raw

/-- Claim C8: `receive` succeeds (returns the message id) exactly when the
Durable Log append, the Entity Store write and the enqueue all complete; a
failing Durable Log write aborts the whole receive, reported to the caller
with nothing retained (never a silent failure); after any failed attempt, a
retried receive converges to exactly the state a single successful receive
produces (log append and store write are idempotent under the same message
id); and every receive preserves log provenance: each retained Message reads
back its Durable Log record. -/
theorem ingress_receive_failure_semantics :
    (∀ (flags : FailFlags) (w : World) (ns mid ts raw : String),
        ((ingressReceive flags w ns mid ts raw).2).isSome = true ↔ flags = FailFlags.allOk) ∧
    (∀ (flags : FailFlags) (w : World) (ns mid ts raw : String), flags.logFail = true →
        ingressReceive flags w ns mid ts raw = (w, none)) ∧
    (∀ (flags : FailFlags) (w : World) (ns mid ts raw : String), flags ≠ FailFlags.allOk →
        ingressReceive FailFlags.allOk (ingressReceive flags w ns mid ts raw).1 ns mid ts raw =
          ingressReceive FailFlags.allOk w ns mid ts raw) ∧
    (∀ (flags : FailFlags) (w : World) (ns mid ts raw : String),
        logProvenance w → logProvenance (ingressReceive flags w ns mid ts raw).1) := by
  refine ⟨?_, ?_, ?_, ?_⟩
  · intro flags w ns mid ts raw
    obtain ⟨lf, sf, ef⟩ := flags
    cases lf <;> cases sf <;> cases ef <;>
      simp [ingressReceive, FailFlags.allOk]
  · intro flags w ns mid ts raw hlf
    obtain ⟨lf, sf, ef⟩ := flags
    cases lf
    · exact absurd hlf (by simp)
    · rfl
  · intro flags w ns mid ts raw hne
    obtain ⟨lf, sf, ef⟩ := flags
    cases lf
    · cases sf
      · cases ef
        · exact absurd rfl hne
        · show ingressReceive FailFlags.allOk
            ⟨(logAppend w.log ns ts mid raw).1,
             putMsgIfAbsent w.store
               ⟨ns, mid, raw, (logAppend w.log ns ts mid raw).2, .received, ts⟩,
             w.workQueue, w.respQueue⟩ ns mid ts raw = _
          unfold ingressReceive
          dsimp only
          rw [logAppend_idem]
          dsimp only
          rw [logAppend_ref, putMsgIfAbsent_idem]
          simp [FailFlags.allOk]
      · show ingressReceive FailFlags.allOk
          ⟨(logAppend w.log ns ts mid raw).1, w.store, w.workQueue, w.respQueue⟩
            ns mid ts raw = _
        unfold ingressReceive
        dsimp only
        rw [logAppend_idem]
        dsimp only
        rw [logAppend_ref]
        simp [FailFlags.allOk]
    · rfl
  · intro flags w ns mid ts raw hprov
    obtain ⟨lf, sf, ef⟩ := flags
    cases lf
    · cases sf
      · cases ef
        · exact provenance_store_step w ns mid ts raw hprov
        · exact provenance_store_step w ns mid ts raw hprov
      · intro m hm
        exact logGet_append_isSome ns ts mid raw (hprov m hm)
    · exact hprov

/-- Witness for C8 at the empty world: a receive whose enqueue step fails is
reported as failed, and the retry converges to the state of a single
successful receive; a receive whose log write fails retains nothing; the
successful receive preserves log provenance. -/
theorem ingress_receive_failure_semantics_witness :
    ((⟨false, false, true⟩ : FailFlags) ≠ FailFlags.allOk) ∧
    ((⟨true, false, false⟩ : FailFlags).logFail = true) ∧
    (ingressReceive ⟨true, false, false⟩ ⟨[], ⟨[], [], 0⟩, [], []⟩ "u" "m1" "t1" "hi" =
      (⟨[], ⟨[], [], 0⟩, [], []⟩, none)) ∧
    (ingressReceive FailFlags.allOk
        (ingressReceive ⟨false, false, true⟩ ⟨[], ⟨[], [], 0⟩, [], []⟩ "u" "m1" "t1" "hi").1
        "u" "m1" "t1" "hi" =
      ingressReceive FailFlags.allOk ⟨[], ⟨[], [], 0⟩, [], []⟩ "u" "m1" "t1" "hi") ∧
    logProvenance (⟨[], ⟨[], [], 0⟩, [], []⟩ : World) ∧
    logProvenance
      (ingressReceive FailFlags.allOk ⟨[], ⟨[], [], 0⟩, [], []⟩ "u" "m1" "t1" "hi").1 := by
  have hprov0 : logProvenance (⟨[], ⟨[], [], 0⟩, [], []⟩ : World) := by
    intro m hm
    exact absurd hm (List.not_mem_nil m)
  refine ⟨by decide, rfl, ?_, ?_, hprov0, ?_⟩
  · exact ingress_receive_failure_semantics.2.1 ⟨true, false, false⟩
      ⟨[], ⟨[], [], 0⟩, [], []⟩ "u" "m1" "t1" "hi" rfl
  · exact ingress_receive_failure_semantics.2.2.1 ⟨false, false, true⟩
      ⟨[], ⟨[], [], 0⟩, [], []⟩ "u" "m1" "t1" "hi" (by decide)
  · exact ingress_receive_failure_semantics.2.2.2 FailFlags.allOk
      ⟨[], ⟨[], [], 0⟩, [], []⟩ "u" "m1" "t1" "hi" hprov0

end SecondBrain
